import Mathlib

/-!
Formal model of the matched-pairs resampling engine in src/main.rs of the
adjei_sampling_rs repository.

The program reads rows into Instance records, partitions them on the literal
condition label "Big-Group" into a reference population and a matchable
population, and then, per iteration: clones both populations, shuffles the
matchable one, greedily pairs each matchable record with the remaining
reference record whose pre value is nearest (a stable descending sort by
absolute pre difference followed by a pop of the last element), runs a paired
t-test on the post values of the pairs, and records one statistics row.
After all iterations it aggregates the iteration log.

Modelling conventions:
- f64 values carrying finite data are modelled as exact rationals; the spec's
  data-model invariant is that all measurements are finite.  A separate
  IEEE-style value type FP is used where the claims are about non-finite
  propagation, and the mathematical contract of the t-test is stated over ℝ.
- Rust's sort_by is a stable sort; a stable sort under a total preorder has a
  unique result, so it is modelled with List.insertionSort (also stable, and
  structurally recursive hence evaluable by the kernel).
- The fallible pop (Vec::pop().unwrap()) is modelled with Option; none is the
  fatal panic.
- Square roots and the Student-t density have no exact rational counterpart;
  where only the data flow matters (the iteration driver) they are abstracted
  as function parameters and every theorem quantifies over them.
-/

/-- One input row (struct Instance in src/main.rs): a condition label and four
numeric measurements; the serde field named final is called post. -/
structure Instance where
  condition : String
  mid : ℚ
  pre : ℚ
  gain : ℚ
  post : ℚ
deriving DecidableEq

/-- One matched pair (struct Match in src/main.rs): big is the record popped
from the reference pool, small is the matchable record it was matched to. -/
structure Match where
  big : Instance
  small : Instance
deriving DecidableEq

/-- Partition of the input rows (main, lines 97-99): a row goes to the
reference population iff its condition is string-equal to the literal
"Big-Group"; every other row goes to the matchable population.  No further
validation of the label set is performed; the function is total. -/
def partitionRecords (data : List Instance) : List Instance × List Instance :=
  data.partition (fun element => element.condition == "Big-Group")

/-- Sort key of the matching loop: absolute difference between a pool
element's pre value and the current matchable record's pre value. -/
def sortKey (record a : Instance) : ℚ := |a.pre - record.pre|

/-- The comparator of main lines 125-131: compare by absolute pre difference
and reverse, i.e. sort the pool in descending key order.  a precedes b when
the key of b is at most the key of a. -/
def poolOrder (record : Instance) : Instance → Instance → Prop :=
  fun a b => sortKey record b ≤ sortKey record a

instance poolOrderDec (record : Instance) : DecidableRel (poolOrder record) :=
  fun a b => inferInstanceAs (Decidable (sortKey record b ≤ sortKey record a))

/-- The sort of the remaining pool performed for one matchable record
(main, lines 125-131).  Rust's sort_by is stable; insertionSort is the
stable sort of the same total preorder, hence produces the same list. -/
def sortPool (record : Instance) (pool : List Instance) : List Instance :=
  List.insertionSort (poolOrder record) pool

/-- The matching loop (main, lines 121-140): for each matchable record in
presentation order, sort the remaining pool in descending key order, pop the
last element (the nearest remaining reference record), and emit the pair.
The pop from an empty pool is the fatal unwrap, modelled as none. -/
def matchLoop : List Instance → List Instance → Option (List Match)
  | [], _ => some []
  | record :: rest, pool =>
    match (sortPool record pool).getLast? with
    | none => none
    | some matched =>
      (matchLoop rest (sortPool record pool).dropLast).map
        (fun ms => ⟨matched, record⟩ :: ms)

/-- Concrete records used by the closed witness statements below. -/
def bigA : Instance := ⟨"Big-Group", 0, 1, 0, 5⟩

/-- Second concrete reference record for the witnesses. -/
def bigB : Instance := ⟨"Big-Group", 0, 10, 0, 6⟩

/-- Concrete matchable record for the witnesses. -/
def smallA : Instance := ⟨"Small-Group", 0, 2, 0, 7⟩

/-- Mean of the statistical crate over the exact-rational model of f64 (sum
divided by length; the crate is an external dependency, the spec describes it
as the arithmetic mean).  Rational division by zero is 0, so the empty case
is handled separately where a claim depends on it. -/
def meanQ (l : List ℚ) : ℚ := l.sum / (l.length : ℚ)

/-- Sample variance with denominator n-1, as computed by the statistical
crate's standard_deviation before its square root: sum of squared deviations
from the mean, divided by length - 1.  The subtraction is ℕ subtraction,
mirroring the usize subtraction in the source before the cast to f64. -/
def varianceQ (l : List ℚ) : ℚ :=
  ((l.map fun x => (x - meanQ l) ^ 2).sum) / ((l.length - 1 : ℕ) : ℚ)

/-- Result of fn paired_t (struct TTestResult) in the rational model. -/
structure TTestResultQ where
  p : ℚ
  t : ℚ
deriving DecidableEq

/-- The per-pair differences d of fn paired_t: the two sequences are zipped
and subtracted, first minus second. -/
def diffsQ (a b : List ℚ) : List ℚ := List.zipWith (fun x y => x - y) a b

/-- fn paired_t (main, lines 478-497) in the rational model.  sqrtQ abstracts
f64::sqrt and pdfQ abstracts the statrs Student-t density at location 0 and
scale 1 (first argument the degrees of freedom, second the point); both are
irrational-valued operations of external crates, so the theorems quantify
over them. -/
def paired_tQ (sqrtQ : ℚ → ℚ) (pdfQ : ℚ → ℚ → ℚ) (a b : List ℚ) : TTestResultQ :=
  let n := a.length
  let d := diffsQ a b
  let dbar := meanQ d
  let sd := sqrtQ (varianceQ d)
  let se_dbar := sd / sqrtQ (n : ℚ)
  let t := dbar / se_dbar
  let p := pdfQ ((n - 1 : ℕ) : ℚ) t
  ⟨p, t⟩

/-- Per-iteration statistics row (struct Output), fields in source order. -/
structure Output where
  small_pre_mean : ℚ
  small_post_mean : ℚ
  small_mid_mean : ℚ
  small_gain_mean : ℚ
  big_pre_mean : ℚ
  big_post_mean : ℚ
  big_mid_mean : ℚ
  big_gain_mean : ℚ
  small_pre_stdev : ℚ
  small_post_stdev : ℚ
  small_mid_stdev : ℚ
  small_gain_stdev : ℚ
  big_pre_stdev : ℚ
  big_post_stdev : ℚ
  big_mid_stdev : ℚ
  big_gain_stdev : ℚ
  post_t_pvalue : ℚ
  post_t_tvalue : ℚ
deriving DecidableEq

/-- Assembly of one Output row (main, lines 142-194): the paired t-test is
invoked with the small sides' post values as the first sequence and the big
sides' post values as the second; the eight means and eight standard
deviations are computed over the matched pairs. -/
def computeOutput (sqrtQ : ℚ → ℚ) (pdfQ : ℚ → ℚ → ℚ) (pairs : List Match) : Output :=
  let tres := paired_tQ sqrtQ pdfQ (pairs.map fun e => e.small.post)
    (pairs.map fun e => e.big.post)
  ⟨meanQ (pairs.map fun e => e.small.pre),
   meanQ (pairs.map fun e => e.small.post),
   meanQ (pairs.map fun e => e.small.mid),
   meanQ (pairs.map fun e => e.small.gain),
   meanQ (pairs.map fun e => e.big.pre),
   meanQ (pairs.map fun e => e.big.post),
   meanQ (pairs.map fun e => e.big.mid),
   meanQ (pairs.map fun e => e.big.gain),
   sqrtQ (varianceQ (pairs.map fun e => e.small.pre)),
   sqrtQ (varianceQ (pairs.map fun e => e.small.post)),
   sqrtQ (varianceQ (pairs.map fun e => e.small.mid)),
   sqrtQ (varianceQ (pairs.map fun e => e.small.gain)),
   sqrtQ (varianceQ (pairs.map fun e => e.big.pre)),
   sqrtQ (varianceQ (pairs.map fun e => e.big.post)),
   sqrtQ (varianceQ (pairs.map fun e => e.big.mid)),
   sqrtQ (varianceQ (pairs.map fun e => e.big.gain)),
   tres.p,
   tres.t⟩

/-- Program state threaded through the iteration loop: the canonical
populations read from input, the count of shuffles consumed so far from the
process-wide generator, and the append-only iteration log. -/
structure ProgState where
  allBig : List Instance
  allSmall : List Instance
  rngIdx : ℕ
  outputs : List Output
deriving DecidableEq

/-- One iteration of the driver loop (main, lines 111-197): work on clones of
the canonical populations (cloning is modelled by reading the canonical
fields and leaving them unchanged), shuffle the matchable clone with the next
shuffle outcome of the generator stream, run the matching loop against the
reference clone, and append one Output row.  A pop from an empty pool inside
the matching loop is the fatal unwrap, modelled as none. -/
def iterate (sqrtQ : ℚ → ℚ) (pdfQ : ℚ → ℚ → ℚ)
    (shuffle : ℕ → List Instance → List Instance) (s : ProgState) : Option ProgState :=
  match matchLoop (shuffle s.rngIdx s.allSmall) s.allBig with
  | none => none
  | some ms => some ⟨s.allBig, s.allSmall, s.rngIdx + 1,
      s.outputs ++ [computeOutput sqrtQ pdfQ ms]⟩

/-- The iteration loop run for a requested iteration count. -/
def runIters (sqrtQ : ℚ → ℚ) (pdfQ : ℚ → ℚ → ℚ)
    (shuffle : ℕ → List Instance → List Instance) : ℕ → ProgState → Option ProgState
  | 0, s => some s
  | n + 1, s => (iterate sqrtQ pdfQ shuffle s).bind (runIters sqrtQ pdfQ shuffle n)

/-- Trivial stand-in for the abstracted square root in closed witnesses. -/
def sqrtZ : ℚ → ℚ := fun _ => 0

/-- Trivial stand-in for the abstracted Student-t density in closed witnesses. -/
def pdfZ : ℚ → ℚ → ℚ := fun _ _ => 0

/-- Identity shuffle stream for closed witnesses. -/
def shuffleId : ℕ → List Instance → List Instance := fun _ l => l

/-- Concrete initial program state for closed witnesses. -/
def stateW : ProgState := ⟨[bigA, bigB], [smallA], 0, []⟩

/-- The state reached from stateW after one iteration under the stand-ins. -/
def stateW1 : ProgState :=
  ⟨[bigA, bigB], [smallA], 1, [computeOutput sqrtZ pdfZ [⟨bigA, smallA⟩]]⟩

/-- Concrete Output row (all statistics zero) for closed witnesses. -/
def outW : Output := ⟨0, 0, 0, 0, 0, 0, 0, 0, 0, 0, 0, 0, 0, 0, 0, 0, 0, 0⟩

/-- proportion_significant (main, lines 430-431): the count of iteration rows
whose t-test density value is strictly below the literal threshold 0.05,
divided by the number of rows. -/
def proportion_significant (outputs : List Output) : ℚ :=
  ((outputs.countP fun e => decide (e.post_t_pvalue < 0.05)) : ℚ) / (outputs.length : ℚ)

/-- Modelled from the spec: the mean function of the statistical crate (the
crate's source is not part of this repository).  Per spec sections 4.4 and 7
aggregation of an empty iteration log is fatal (EmptyIterationSet: the mean
is undefined on an empty sequence), so the modelled crate mean fails on an
empty list; on nonempty input it is the arithmetic mean. -/
def crateMean (l : List ℚ) : Option ℚ :=
  if l.isEmpty then none else some (meanQ l)

/-- Modelled from the spec: the sample standard deviation of the statistical
crate (denominator n-1), undefined on fewer than two data points (spec
section 7: at least 2 iterations are needed for a meaningful standard
deviation); the square root is abstracted. -/
def crateStdev (sqrtQ : ℚ → ℚ) (l : List ℚ) : Option ℚ :=
  if l.length < 2 then none else some (sqrtQ (varianceQ l))

/-- The aggregate scalars of one program run, in the order in which the
source computes them (main, lines 205-431). -/
structure AggregateSummary where
  small_pre_mean_mean : ℚ
  big_pre_mean_mean : ℚ
  small_post_mean_mean : ℚ
  big_post_mean_mean : ℚ
  small_mid_mean_mean : ℚ
  big_mid_mean_mean : ℚ
  small_pre_stdev_mean : ℚ
  big_pre_stdev_mean : ℚ
  small_post_stdev_mean : ℚ
  big_post_stdev_mean : ℚ
  small_mid_stdev_mean : ℚ
  big_mid_stdev_mean : ℚ
  post_t_pvalue_mean : ℚ
  post_t_tvalue_mean : ℚ
  small_pre_mean_stdev : ℚ
  big_pre_mean_stdev : ℚ
  small_post_mean_stdev : ℚ
  big_post_mean_stdev : ℚ
  small_mid_mean_stdev : ℚ
  big_mid_mean_stdev : ℚ
  small_pre_stdev_stdev : ℚ
  big_pre_stdev_stdev : ℚ
  small_post_stdev_stdev : ℚ
  big_post_stdev_stdev : ℚ
  small_mid_stdev_stdev : ℚ
  big_mid_stdev_stdev : ℚ
  post_t_pvalue_stdev : ℚ
  post_t_tvalue_stdev : ℚ
  small_gain_mean_mean : ℚ
  big_gain_mean_mean : ℚ
  small_gain_mean_stdev : ℚ
  big_gain_mean_stdev : ℚ
  small_gain_stdev_mean : ℚ
  big_gain_stdev_mean : ℚ
  small_gain_stdev_stdev : ℚ
  big_gain_stdev_stdev : ℚ
  prop_significant : ℚ
deriving DecidableEq

/-- The first block of aggregate means (main, lines 205-230): means across
iterations of the six pre/post/mid mean columns. -/
def aggMeansOfMeans (outputs : List Output) : Option (List ℚ) := do
  let small_pre_mean_mean ← crateMean (outputs.map fun e => e.small_pre_mean)
  let big_pre_mean_mean ← crateMean (outputs.map fun e => e.big_pre_mean)
  let small_post_mean_mean ← crateMean (outputs.map fun e => e.small_post_mean)
  let big_post_mean_mean ← crateMean (outputs.map fun e => e.big_post_mean)
  let small_mid_mean_mean ← crateMean (outputs.map fun e => e.small_mid_mean)
  let big_mid_mean_mean ← crateMean (outputs.map fun e => e.big_mid_mean)
  some [small_pre_mean_mean, big_pre_mean_mean, small_post_mean_mean,
    big_post_mean_mean, small_mid_mean_mean, big_mid_mean_mean]

/-- The second block (main, lines 231-279): means across iterations of the
six pre/post/mid stdev columns and of the two t-test columns. -/
def aggMeansOfStdevs (outputs : List Output) : Option (List ℚ) := do
  let small_pre_stdev_mean ← crateMean (outputs.map fun e => e.small_pre_stdev)
  let big_pre_stdev_mean ← crateMean (outputs.map fun e => e.big_pre_stdev)
  let small_post_stdev_mean ← crateMean (outputs.map fun e => e.small_post_stdev)
  let big_post_stdev_mean ← crateMean (outputs.map fun e => e.big_post_stdev)
  let small_mid_stdev_mean ← crateMean (outputs.map fun e => e.small_mid_stdev)
  let big_mid_stdev_mean ← crateMean (outputs.map fun e => e.big_mid_stdev)
  let post_t_pvalue_mean ← crateMean (outputs.map fun e => e.post_t_pvalue)
  let post_t_tvalue_mean ← crateMean (outputs.map fun e => e.post_t_tvalue)
  some [small_pre_stdev_mean, big_pre_stdev_mean, small_post_stdev_mean,
    big_post_stdev_mean, small_mid_stdev_mean, big_mid_stdev_mean,
    post_t_pvalue_mean, post_t_tvalue_mean]

/-- The third block (main, lines 281-316): standard deviations across
iterations of the six pre/post/mid mean columns. -/
def aggStdevsOfMeans (sqrtQ : ℚ → ℚ) (outputs : List Output) : Option (List ℚ) := do
  let small_pre_mean_stdev ← crateStdev sqrtQ (outputs.map fun e => e.small_pre_mean)
  let big_pre_mean_stdev ← crateStdev sqrtQ (outputs.map fun e => e.big_pre_mean)
  let small_post_mean_stdev ← crateStdev sqrtQ (outputs.map fun e => e.small_post_mean)
  let big_post_mean_stdev ← crateStdev sqrtQ (outputs.map fun e => e.big_post_mean)
  let small_mid_mean_stdev ← crateStdev sqrtQ (outputs.map fun e => e.small_mid_mean)
  let big_mid_mean_stdev ← crateStdev sqrtQ (outputs.map fun e => e.big_mid_mean)
  some [small_pre_mean_stdev, big_pre_mean_stdev, small_post_mean_stdev,
    big_post_mean_stdev, small_mid_mean_stdev, big_mid_mean_stdev]

/-- The fourth block (main, lines 318-374): standard deviations across
iterations of the six pre/post/mid stdev columns and of the two t-test
columns. -/
def aggStdevsOfStdevs (sqrtQ : ℚ → ℚ) (outputs : List Output) : Option (List ℚ) := do
  let small_pre_stdev_stdev ← crateStdev sqrtQ (outputs.map fun e => e.small_pre_stdev)
  let big_pre_stdev_stdev ← crateStdev sqrtQ (outputs.map fun e => e.big_pre_stdev)
  let small_post_stdev_stdev ← crateStdev sqrtQ (outputs.map fun e => e.small_post_stdev)
  let big_post_stdev_stdev ← crateStdev sqrtQ (outputs.map fun e => e.big_post_stdev)
  let small_mid_stdev_stdev ← crateStdev sqrtQ (outputs.map fun e => e.small_mid_stdev)
  let big_mid_stdev_stdev ← crateStdev sqrtQ (outputs.map fun e => e.big_mid_stdev)
  let post_t_pvalue_stdev ← crateStdev sqrtQ (outputs.map fun e => e.post_t_pvalue)
  let post_t_tvalue_stdev ← crateStdev sqrtQ (outputs.map fun e => e.post_t_tvalue)
  some [small_pre_stdev_stdev, big_pre_stdev_stdev, small_post_stdev_stdev,
    big_post_stdev_stdev, small_mid_stdev_stdev, big_mid_stdev_stdev,
    post_t_pvalue_stdev, post_t_tvalue_stdev]

/-- The fifth block (main, lines 376-428): means and standard deviations
across iterations of the gain mean and gain stdev columns. -/
def aggGains (sqrtQ : ℚ → ℚ) (outputs : List Output) : Option (List ℚ) := do
  let small_gain_mean_mean ← crateMean (outputs.map fun e => e.small_gain_mean)
  let big_gain_mean_mean ← crateMean (outputs.map fun e => e.big_gain_mean)
  let small_gain_mean_stdev ← crateStdev sqrtQ (outputs.map fun e => e.small_gain_mean)
  let big_gain_mean_stdev ← crateStdev sqrtQ (outputs.map fun e => e.big_gain_mean)
  let small_gain_stdev_mean ← crateMean (outputs.map fun e => e.small_gain_stdev)
  let big_gain_stdev_mean ← crateMean (outputs.map fun e => e.big_gain_stdev)
  let small_gain_stdev_stdev ← crateStdev sqrtQ (outputs.map fun e => e.small_gain_stdev)
  let big_gain_stdev_stdev ← crateStdev sqrtQ (outputs.map fun e => e.big_gain_stdev)
  some [small_gain_mean_mean, big_gain_mean_mean, small_gain_mean_stdev,
    big_gain_mean_stdev, small_gain_stdev_mean, big_gain_stdev_mean,
    small_gain_stdev_stdev, big_gain_stdev_stdev]

/-- The cross-iteration aggregation (main, lines 205-431): mean and sample
standard deviation of every Output field across the iteration log, computed
block by block in source order (the blocks above), plus the proportion of
significant iterations.  A modelled crate call on a degenerate log fails the
whole aggregation; with an empty log the very first mean of the first block
already fails, before any aggregate is produced. -/
def aggregateSummary (sqrtQ : ℚ → ℚ) (outputs : List Output) :
    Option AggregateSummary :=
  match aggMeansOfMeans outputs, aggMeansOfStdevs outputs,
      aggStdevsOfMeans sqrtQ outputs, aggStdevsOfStdevs sqrtQ outputs,
      aggGains sqrtQ outputs with
  | some [a1, a2, a3, a4, a5, a6],
    some [b1, b2, b3, b4, b5, b6, b7, b8],
    some [c1, c2, c3, c4, c5, c6],
    some [d1, d2, d3, d4, d5, d6, d7, d8],
    some [e1, e2, e3, e4, e5, e6, e7, e8] =>
    some ⟨a1, a2, a3, a4, a5, a6, b1, b2, b3, b4, b5, b6, b7, b8,
      c1, c2, c3, c4, c5, c6, d1, d2, d3, d4, d5, d6, d7, d8,
      e1, e2, e3, e4, e5, e6, e7, e8, proportion_significant outputs⟩
  | _, _, _, _, _ => none

/-- Modelled from the spec: the mean of the statistical crate over the
idealized reals (the crate's source is not in the repository; the spec
describes the arithmetic mean).  The sum is written as the crate computes
it, a left fold. -/
noncomputable def meanR (l : List ℝ) : ℝ :=
  (l.foldl (fun acc e => acc + e) 0) / (l.length : ℝ)

/-- Modelled from the spec: the sample standard deviation of the statistical
crate over the idealized reals, the square root of the sum of squared
deviations from the mean divided by n-1 (ℕ subtraction mirrors the usize
subtraction of the length before the cast). -/
noncomputable def stdevR (l : List ℝ) : ℝ :=
  Real.sqrt (((l.map fun e => (e - meanR l) ^ 2).foldl (fun acc e => acc + e) 0) /
    ((l.length - 1 : ℕ) : ℝ))

/-- Modelled from the spec: the statrs Student-t probability density with
location 0 and scale 1 at the given degrees of freedom (the crate's source is
not in the repository; this is the standard density formula the spec names). -/
noncomputable def studentTDensity (freedom x : ℝ) : ℝ :=
  Real.Gamma ((freedom + 1) / 2) /
    (Real.sqrt (freedom * Real.pi) * Real.Gamma (freedom / 2)) *
    (1 + x ^ 2 / freedom) ^ (-((freedom + 1) / 2))

/-- Result of fn paired_t (struct TTestResult) over the reals. -/
structure TTestResult where
  p : ℝ
  t : ℝ

/-- The per-pair differences d of fn paired_t over the reals: the two
sequences zipped and subtracted, first minus second. -/
noncomputable def diffsR (a b : List ℝ) : List ℝ :=
  List.zipWith (fun u v => u - v) a b

/-- fn paired_t (main, lines 478-497) over the idealized reals: differences,
their mean and sample standard deviation, standard error, t statistic, and
the Student-t density with n-1 degrees of freedom evaluated at t. -/
noncomputable def paired_t (a b : List ℝ) : TTestResult :=
  let n := a.length
  let d := diffsR a b
  let dbar := meanR d
  let sd := stdevR d
  let se_dbar := sd / Real.sqrt (n : ℝ)
  let t := dbar / se_dbar
  let p := studentTDensity ((n - 1 : ℕ) : ℝ) t
  ⟨p, t⟩

/-- Specification-side arithmetic mean (sum divided by count), named from the
spec's wording for the refinement statement of the t-test contract. -/
noncomputable def specMean (l : List ℝ) : ℝ := l.sum / (l.length : ℝ)

/-- Specification-side sample standard deviation with denominator n-1, named
from the spec's wording. -/
noncomputable def specSampleStdev (l : List ℝ) : ℝ :=
  Real.sqrt ((l.map fun e => (e - specMean l) ^ 2).sum / ((l.length - 1 : ℕ) : ℝ))

/-- Idealized IEEE-754 double for the degeneracy analysis of the t-test: one
(unsigned) NaN, two signed infinities, and exact rational finite values.  No
rounding and no signed zero are modelled (the sign of an infinite quotient
with zero divisor follows the dividend); the claims settled over this type
depend only on the finite/non-finite structure, which the type captures. -/
inductive FP where
  | nan : FP
  | inf : FP
  | neginf : FP
  | num : ℚ → FP
deriving DecidableEq

namespace FP

/-- IEEE negation. -/
def neg : FP → FP
  | nan => nan
  | inf => neginf
  | neginf => inf
  | num q => num (-q)

/-- IEEE addition: NaN and opposite infinities give NaN, an infinity
dominates finite values. -/
def add : FP → FP → FP
  | nan, _ => nan
  | _, nan => nan
  | inf, neginf => nan
  | neginf, inf => nan
  | inf, _ => inf
  | _, inf => inf
  | neginf, _ => neginf
  | _, neginf => neginf
  | num q, num r => num (q + r)

/-- IEEE subtraction, addition of the negation. -/
def sub (a b : FP) : FP := add a (neg b)

/-- IEEE multiplication: NaN propagates, zero times an infinity is NaN,
signs multiply. -/
def mul : FP → FP → FP
  | nan, _ => nan
  | _, nan => nan
  | inf, inf => inf
  | inf, neginf => neginf
  | neginf, inf => neginf
  | neginf, neginf => inf
  | inf, num q => if q = 0 then nan else if 0 < q then inf else neginf
  | num q, inf => if q = 0 then nan else if 0 < q then inf else neginf
  | neginf, num q => if q = 0 then nan else if 0 < q then neginf else inf
  | num q, neginf => if q = 0 then nan else if 0 < q then neginf else inf
  | num q, num r => num (q * r)

/-- IEEE division: NaN propagates, infinity over infinity is NaN, a finite
value over an infinity is zero, a nonzero finite value over zero is a signed
infinity and zero over zero is NaN. -/
def div : FP → FP → FP
  | nan, _ => nan
  | _, nan => nan
  | inf, inf => nan
  | inf, neginf => nan
  | neginf, inf => nan
  | neginf, neginf => nan
  | inf, num q => if 0 ≤ q then inf else neginf
  | neginf, num q => if 0 ≤ q then neginf else inf
  | num _, inf => num 0
  | num _, neginf => num 0
  | num q, num r =>
    if r = 0 then (if q = 0 then nan else if 0 < q then inf else neginf)
    else num (q / r)

/-- IEEE square root: NaN on NaN and on negative arguments, infinite on the
positive infinity; on nonnegative rationals the (inexact) rational square
root stands in for the correctly rounded f64 square root, since only sign
and zeroness of the result matter to the claims settled here. -/
def sqrt : FP → FP
  | nan => nan
  | inf => inf
  | neginf => nan
  | num q => if q < 0 then nan else num (Rat.sqrt q)

/-- Finiteness: exactly the rational values are finite. -/
def isFinite : FP → Bool
  | num _ => true
  | _ => false

/-- Modelled from the spec: the crate mean under IEEE pass-through semantics
(spec sections 4.2 and 7: degeneracies inside the t-test propagate as
non-finite values rather than aborting); the fold of the sum divided by the
length, with 0/0 giving NaN. -/
def mean (l : List FP) : FP := div (l.foldl add (num 0)) (num (l.length : ℚ))

/-- Modelled from the spec: the crate sample variance (denominator n-1)
under IEEE pass-through semantics; the ℕ subtraction mirrors the usize
subtraction of the source, and division by zero for n = 1 gives NaN. -/
def variance (l : List FP) : FP :=
  div ((l.map fun e => mul (sub e (mean l)) (sub e (mean l))).foldl add (num 0))
    (num ((l.length - 1 : ℕ) : ℚ))

end FP

/-- Result of fn paired_t in the IEEE model. -/
structure TTestResultFP where
  p : FP
  t : FP
deriving DecidableEq

/-- The per-pair differences d of fn paired_t in the IEEE model. -/
def fpDiffs (a b : List FP) : List FP := List.zipWith FP.sub a b

/-- The mean dbar of the differences. -/
def fpDbar (a b : List FP) : FP := FP.mean (fpDiffs a b)

/-- The sample standard deviation sd of the differences. -/
def fpSd (a b : List FP) : FP := FP.sqrt (FP.variance (fpDiffs a b))

/-- The standard error se_dbar = sd / sqrt n. -/
def fpSe (a b : List FP) : FP :=
  FP.div (fpSd a b) (FP.sqrt (FP.num (a.length : ℚ)))

/-- The t statistic t = dbar / se_dbar. -/
def fpT (a b : List FP) : FP := FP.div (fpDbar a b) (fpSe a b)

/-- fn paired_t (main, lines 478-497) in the IEEE model.  pdfFP abstracts
the statrs Student-t density (modelled from the spec: the statrs crate is
not part of the repository; per spec sections 4.2 and 7 the t-test lets IEEE
semantics pass through instead of aborting, so the density is a total
function of the degrees of freedom and the t value). -/
def paired_t_fp (pdfFP : FP → FP → FP) (a b : List FP) : TTestResultFP :=
  ⟨pdfFP (FP.num ((a.length - 1 : ℕ) : ℚ)) (fpT a b), fpT a b⟩

/-- Fixed stand-in for the abstracted density in the closed witness. -/
def pdfFPZ : FP → FP → FP := fun _ _ => FP.nan

lemma sortPool_perm (record : Instance) (pool : List Instance) :
    (sortPool record pool).Perm pool :=
  List.perm_insertionSort _ _

lemma sortPool_sorted (record : Instance) (pool : List Instance) :
    (sortPool record pool).Pairwise (poolOrder record) := by
  haveI : IsTotal Instance (poolOrder record) := ⟨fun a b => le_total _ _⟩
  haveI : IsTrans Instance (poolOrder record) := ⟨fun _ _ _ hab hbc => le_trans hbc hab⟩
  exact List.sorted_insertionSort _ _

/-- In a list sorted in descending key order, the last element has the least
key of all elements. -/
lemma getLast_min (record : Instance) :
    ∀ (l : List Instance), l.Pairwise (poolOrder record) →
      ∀ (h : l ≠ []) (a : Instance), a ∈ l →
        sortKey record (l.getLast h) ≤ sortKey record a
  | [], _, h, _, _ => absurd rfl h
  | [x], _, _, a, ha => by
      rcases List.mem_singleton.mp ha with rfl
      simp [List.getLast]
  | x :: y :: t, hp, _, a, ha => by
      rcases List.pairwise_cons.mp hp with ⟨hx, hp2⟩
      have hne : y :: t ≠ [] := by simp
      have hl : (x :: y :: t).getLast (by simp) = (y :: t).getLast hne :=
        List.getLast_cons hne
      rcases List.mem_cons.mp ha with rfl | ha2
      · rw [hl]
        exact hx _ (List.getLast_mem hne)
      · rw [hl]
        exact getLast_min record (y :: t) hp2 hne a ha2

/-- Structural invariant of the matching loop: a successful run produces one
pair per matchable record in order, draws the big sides from the pool without
replacement, and at every step the chosen big side is a nearest element of
the pool of reference records not yet consumed by the earlier pairs. -/
lemma matchLoop_invariant :
    ∀ (toMatch pool : List Instance) (ms : List Match),
      matchLoop toMatch pool = some ms →
      ms.length = toMatch.length ∧
      ms.map Match.small = toMatch ∧
      (↑(ms.map Match.big) : Multiset Instance) ≤ (↑pool : Multiset Instance) ∧
      ∀ i (hi : i < ms.length),
        (ms.get ⟨i, hi⟩).big ∈
          ((↑pool : Multiset Instance) - ↑((ms.take i).map Match.big)) ∧
        ∀ a ∈ ((↑pool : Multiset Instance) - ↑((ms.take i).map Match.big)),
          sortKey (ms.get ⟨i, hi⟩).small (ms.get ⟨i, hi⟩).big ≤
            sortKey (ms.get ⟨i, hi⟩).small a := by
  intro toMatch
  induction toMatch with
  | nil =>
    intro pool ms h
    simp only [matchLoop, Option.some.injEq] at h
    subst h
    refine ⟨rfl, rfl, by simp, ?_⟩
    intro i hi
    simp at hi
  | cons record rest ih =>
    intro pool ms h
    simp only [matchLoop] at h
    cases hlast : (sortPool record pool).getLast? with
    | none => rw [hlast] at h; simp at h
    | some matched =>
      rw [hlast] at h
      obtain ⟨ms2, hrun2, hms⟩ := Option.map_eq_some'.mp h
      subst hms
      have hne : sortPool record pool ≠ [] := by
        intro hcon
        rw [hcon] at hlast
        simp at hlast
      have hmatched : matched = (sortPool record pool).getLast hne := by
        rw [List.getLast?_eq_getLast _ hne] at hlast
        exact (Option.some.inj hlast).symm
      have happend : (sortPool record pool).dropLast ++ [matched] = sortPool record pool := by
        rw [hmatched]
        exact List.dropLast_append_getLast hne
      have hpoolms : (↑pool : Multiset Instance) =
          ↑((sortPool record pool).dropLast) + {matched} := by
        have h1 : (↑(sortPool record pool) : Multiset Instance) = ↑pool :=
          Multiset.coe_eq_coe.mpr (sortPool_perm record pool)
        have h2 : (↑((sortPool record pool).dropLast ++ [matched]) : Multiset Instance) =
            ↑((sortPool record pool).dropLast) + {matched} := rfl
        rw [← h1, ← h2, happend]
      obtain ⟨ihlen, ihsmall, ihle, ihmin⟩ := ih _ _ hrun2
      refine ⟨by simp [ihlen], by simp [ihsmall], ?_, ?_⟩
      · rw [hpoolms, add_comm, Multiset.singleton_add]
        simp only [List.map_cons, Multiset.cons_coe]
        exact Multiset.cons_le_cons _ ihle
      · intro i hi
        cases i with
        | zero =>
          constructor
          · simp only [List.take_zero, List.map_nil, Multiset.coe_nil, tsub_zero]
            rw [Multiset.mem_coe]
            have : matched ∈ sortPool record pool := by
              rw [hmatched]; exact List.getLast_mem hne
            exact ((sortPool_perm record pool).mem_iff).mp this
          · intro a ha
            simp only [List.take_zero, List.map_nil, Multiset.coe_nil, tsub_zero,
              Multiset.mem_coe] at ha
            have ha2 : a ∈ sortPool record pool :=
              ((sortPool_perm record pool).mem_iff).mpr ha
            simp only [List.get]
            rw [hmatched]
            exact getLast_min record _ (sortPool_sorted record pool) hne a ha2
        | succ j =>
          have hj : j < ms2.length := by simpa using hi
          have hrem : ((↑pool : Multiset Instance) -
              ↑(((⟨matched, record⟩ :: ms2).take (j + 1)).map Match.big)) =
              ((↑((sortPool record pool).dropLast) : Multiset Instance) -
                ↑((ms2.take j).map Match.big)) := by
            simp only [List.take_succ_cons, List.map_cons, ← Multiset.cons_coe]
            rw [← Multiset.singleton_add, tsub_add_eq_tsub_tsub, hpoolms,
              add_tsub_cancel_right]
          rw [hrem]
          simpa using ihmin j hj

/-- When the reference pool is at least as large as the matchable list, the
matching loop never pops from an empty pool and returns a result. -/
lemma matchLoop_total :
    ∀ (toMatch pool : List Instance), toMatch.length ≤ pool.length →
      ∃ ms, matchLoop toMatch pool = some ms
  | [], _, _ => ⟨[], rfl⟩
  | record :: rest, pool, h => by
      have hlen : (sortPool record pool).length = pool.length :=
        (sortPool_perm record pool).length_eq
      have hcount : rest.length + 1 ≤ pool.length := by
        simpa using h
      have hne : sortPool record pool ≠ [] := by
        intro hcon
        rw [hcon] at hlen
        simp only [List.length_nil] at hlen
        omega
      obtain ⟨ms2, hms2⟩ := matchLoop_total rest ((sortPool record pool).dropLast) (by
        rw [List.length_dropLast, hlen]
        omega)
      exact ⟨⟨(sortPool record pool).getLast hne, record⟩ :: ms2, by
        simp only [matchLoop]
        rw [List.getLast?_eq_getLast _ hne]
        simp [hms2]⟩

/-- C1: greedy nearest-neighbor step correctness.  For populations A and B
with at least as many A-elements as B-elements and B nonempty, in every
successful run of the matching loop the A-element paired with the i-th
B-element has minimal absolute pre difference to that B-element among the
A-elements not yet consumed by the pairs for the earlier B-elements (the
multiset A minus the big sides of the first i pairs), and is itself drawn
from that remaining pool. -/
theorem matcher_greedy_nearest_step (A B : List Instance) (ms : List Match)
    (hsz : B.length ≤ A.length) (hpos : 0 < B.length)
    (hrun : matchLoop B A = some ms) :
    ∀ i (hi : i < ms.length) (hib : i < B.length),
      (ms.get ⟨i, hi⟩).big ∈
        ((↑A : Multiset Instance) - ↑((ms.take i).map Match.big)) ∧
      ∀ a ∈ ((↑A : Multiset Instance) - ↑((ms.take i).map Match.big)),
        |(ms.get ⟨i, hi⟩).big.pre - (B.get ⟨i, hib⟩).pre| ≤
          |a.pre - (B.get ⟨i, hib⟩).pre| := by
  obtain ⟨hlen, hsmall, hle, hmin⟩ := matchLoop_invariant B A ms hrun
  subst hsmall
  intro i hi hib
  obtain ⟨hmem, hminA⟩ := hmin i hi
  refine ⟨hmem, ?_⟩
  intro a ha
  have h3 := hminA a ha
  simpa [sortKey, List.getElem_map] using h3

/-- Closed witness for the greedy nearest-neighbor step theorem: with the
reference pool at pre values 1 and 10 and one matchable record at pre 2, the
loop pairs the record with the pool element at pre 1. -/
theorem matcher_greedy_nearest_step_witness :
    [smallA].length ≤ [bigA, bigB].length ∧ 0 < [smallA].length ∧
    matchLoop [smallA] [bigA, bigB] = some [⟨bigA, smallA⟩] ∧
    ∀ i (hi : i < [(⟨bigA, smallA⟩ : Match)].length) (hib : i < [smallA].length),
      ([(⟨bigA, smallA⟩ : Match)].get ⟨i, hi⟩).big ∈
        ((↑[bigA, bigB] : Multiset Instance) -
          ↑(([(⟨bigA, smallA⟩ : Match)].take i).map Match.big)) ∧
      ∀ a ∈ ((↑[bigA, bigB] : Multiset Instance) -
          ↑(([(⟨bigA, smallA⟩ : Match)].take i).map Match.big)),
        |(([(⟨bigA, smallA⟩ : Match)].get ⟨i, hi⟩).big.pre -
          ([smallA].get ⟨i, hib⟩).pre)| ≤ |a.pre - ([smallA].get ⟨i, hib⟩).pre| :=
  ⟨by decide, by decide, by with_unfolding_all rfl,
    matcher_greedy_nearest_step [bigA, bigB] [smallA] [⟨bigA, smallA⟩]
      (by decide) (by decide) (by with_unfolding_all rfl)⟩

/-- C2: matching completeness.  For populations A and B with at least as many
A-elements as B-elements and B nonempty, one run of the matching loop
succeeds and produces exactly one pair per B-element: B is exactly the list
of small sides in order (so each B-element is the small side of exactly one
pair), and the multiset of big sides is contained in A (so each A-element is
used at most once, and exactly as many A-positions as B-elements are
consumed, without reuse). -/
theorem matcher_completeness (A B : List Instance)
    (hpos : 0 < B.length) (hsz : B.length ≤ A.length) :
    ∃ ms, matchLoop B A = some ms ∧ ms.length = B.length ∧
      ms.map Match.small = B ∧
      (↑(ms.map Match.big) : Multiset Instance) ≤ (↑A : Multiset Instance) := by
  obtain ⟨ms, hms⟩ := matchLoop_total B A hsz
  obtain ⟨h1, h2, h3, _⟩ := matchLoop_invariant B A ms hms
  exact ⟨ms, hms, h1, h2, h3⟩

/-- Closed witness for the completeness theorem at a two-element pool and a
one-element matchable population. -/
theorem matcher_completeness_witness :
    0 < [smallA].length ∧ [smallA].length ≤ [bigA, bigB].length ∧
    ∃ ms, matchLoop [smallA] [bigA, bigB] = some ms ∧ ms.length = [smallA].length ∧
      ms.map Match.small = [smallA] ∧
      (↑(ms.map Match.big) : Multiset Instance) ≤ (↑[bigA, bigB] : Multiset Instance) :=
  ⟨by decide, by decide,
    matcher_completeness [bigA, bigB] [smallA] (by decide) (by decide)⟩

/-- C8: matcher determinism.  The matching loop of the embedding is a pure
function of the reference pool and the presented order of the matchable
population (the source loop reads no other state: the random generator is
consumed only by the shuffle that fixes the presentation order), so two
invocations on identical inputs return identical pair sequences. -/
theorem matcher_deterministic (A1 A2 B1 B2 : List Instance)
    (hA : A1 = A2) (hB : B1 = B2) :
    matchLoop B1 A1 = matchLoop B2 A2 := by
  subst hA
  subst hB
  rfl

/-- Closed witness for matcher determinism. -/
theorem matcher_deterministic_witness :
    [bigA, bigB] = [bigA, bigB] ∧ [smallA] = [smallA] ∧
    matchLoop [smallA] [bigA, bigB] = matchLoop [smallA] [bigA, bigB] :=
  ⟨rfl, rfl, matcher_deterministic [bigA, bigB] [bigA, bigB] [smallA] [smallA] rfl rfl⟩

/-- C5: fail-open partitioning.  A row is placed in the reference population
iff its label is string-equal to the literal "Big-Group"; every row with any
other label (a typo or an unexpected third category included) is placed in
the matchable population.  The partition is a total function of the row list:
no validation that exactly two distinct labels occur is performed. -/
theorem partition_fail_open (data : List Instance) (r : Instance) :
    ((partitionRecords data).1 = data.filter (fun e => e.condition == "Big-Group") ∧
     (partitionRecords data).2 = data.filter (fun e => !(e.condition == "Big-Group"))) ∧
    (r ∈ (partitionRecords data).1 ↔ r ∈ data ∧ r.condition = "Big-Group") ∧
    (r ∈ (partitionRecords data).2 ↔ r ∈ data ∧ r.condition ≠ "Big-Group") := by
  refine ⟨⟨?_, ?_⟩, ?_, ?_⟩
  · simp [partitionRecords, List.partition_eq_filter_filter]
  · rw [partitionRecords, List.partition_eq_filter_filter]
    exact rfl
  · simp [partitionRecords, List.partition_eq_filter_filter, List.mem_filter]
  · simp [partitionRecords, List.partition_eq_filter_filter, List.mem_filter,
      Function.comp]

/-- One successful iteration leaves the canonical populations unchanged. -/
lemma iterate_keeps_inputs (sqrtQ : ℚ → ℚ) (pdfQ : ℚ → ℚ → ℚ)
    (shuffle : ℕ → List Instance → List Instance) (s s2 : ProgState)
    (h : iterate sqrtQ pdfQ shuffle s = some s2) :
    s2.allBig = s.allBig ∧ s2.allSmall = s.allSmall := by
  unfold iterate at h
  cases hm : matchLoop (shuffle s.rngIdx s.allSmall) s.allBig with
  | none => rw [hm] at h; simp at h
  | some ms =>
    rw [hm] at h
    cases Option.some.inj h
    exact ⟨rfl, rfl⟩

/-- C9: canonical input preservation.  Every iteration works on clones; after
any number of iterations the canonical reference and matchable populations of
the program state are exactly the populations it started with, for every
choice of the abstracted square root, density and shuffle stream. -/
theorem iterations_preserve_inputs (sqrtQ : ℚ → ℚ) (pdfQ : ℚ → ℚ → ℚ)
    (shuffle : ℕ → List Instance → List Instance) (n : ℕ) (s s2 : ProgState)
    (h : runIters sqrtQ pdfQ shuffle n s = some s2) :
    s2.allBig = s.allBig ∧ s2.allSmall = s.allSmall := by
  induction n generalizing s with
  | zero =>
    cases Option.some.inj h
    exact ⟨rfl, rfl⟩
  | succ k ih =>
    simp only [runIters] at h
    cases hi : iterate sqrtQ pdfQ shuffle s with
    | none => rw [hi] at h; simp at h
    | some s1 =>
      rw [hi] at h
      simp only [Option.some_bind] at h
      obtain ⟨h1, h2⟩ := iterate_keeps_inputs sqrtQ pdfQ shuffle s s1 hi
      obtain ⟨h3, h4⟩ := ih s1 h
      exact ⟨h3.trans h1, h4.trans h2⟩

/-- Closed witness for canonical input preservation: one concrete iteration. -/
theorem iterations_preserve_inputs_witness :
    runIters sqrtZ pdfZ shuffleId 1 stateW = some stateW1 ∧
    (stateW1.allBig = stateW.allBig ∧ stateW1.allSmall = stateW.allSmall) :=
  ⟨by with_unfolding_all rfl,
    iterations_preserve_inputs sqrtZ pdfZ shuffleId 1 stateW stateW1
      (by with_unfolding_all rfl)⟩

/-- C10: difference direction.  In every successful iteration the paired
t-test is applied with the small (matchable) sides' post values as the first
sequence and the big (reference) sides' post values as the second, aligned by
pair index, and each per-pair difference is small.post minus big.post; the
t-value stored in the iteration's Output row is the t of exactly that
invocation. -/
theorem t_test_difference_direction (sqrtQ : ℚ → ℚ) (pdfQ : ℚ → ℚ → ℚ)
    (shuffle : ℕ → List Instance → List Instance) (s s2 : ProgState)
    (h : iterate sqrtQ pdfQ shuffle s = some s2) :
    ∃ ms, matchLoop (shuffle s.rngIdx s.allSmall) s.allBig = some ms ∧
      s2.outputs = s.outputs ++ [computeOutput sqrtQ pdfQ ms] ∧
      (computeOutput sqrtQ pdfQ ms).post_t_tvalue =
        (paired_tQ sqrtQ pdfQ (ms.map fun e => e.small.post)
          (ms.map fun e => e.big.post)).t ∧
      (diffsQ (ms.map fun e => e.small.post) (ms.map fun e => e.big.post)).length
        = ms.length ∧
      ∀ i (hi : i < (diffsQ (ms.map fun e => e.small.post)
            (ms.map fun e => e.big.post)).length) (hm : i < ms.length),
        (diffsQ (ms.map fun e => e.small.post)
            (ms.map fun e => e.big.post)).get ⟨i, hi⟩
          = (ms.get ⟨i, hm⟩).small.post - (ms.get ⟨i, hm⟩).big.post := by
  unfold iterate at h
  cases hm : matchLoop (shuffle s.rngIdx s.allSmall) s.allBig with
  | none => rw [hm] at h; simp at h
  | some ms =>
    rw [hm] at h
    cases Option.some.inj h
    refine ⟨ms, rfl, rfl, rfl, by simp [diffsQ], ?_⟩
    intro i hi hmlt
    simp [diffsQ, List.getElem_zipWith, List.getElem_map]

/-- Closed witness for the difference-direction theorem: one concrete
iteration under the stand-ins. -/
theorem t_test_difference_direction_witness :
    iterate sqrtZ pdfZ shuffleId stateW = some stateW1 ∧
    ∃ ms, matchLoop (shuffleId stateW.rngIdx stateW.allSmall) stateW.allBig = some ms ∧
      stateW1.outputs = stateW.outputs ++ [computeOutput sqrtZ pdfZ ms] ∧
      (computeOutput sqrtZ pdfZ ms).post_t_tvalue =
        (paired_tQ sqrtZ pdfZ (ms.map fun e => e.small.post)
          (ms.map fun e => e.big.post)).t ∧
      (diffsQ (ms.map fun e => e.small.post) (ms.map fun e => e.big.post)).length
        = ms.length ∧
      ∀ i (hi : i < (diffsQ (ms.map fun e => e.small.post)
            (ms.map fun e => e.big.post)).length) (hm : i < ms.length),
        (diffsQ (ms.map fun e => e.small.post)
            (ms.map fun e => e.big.post)).get ⟨i, hi⟩
          = (ms.get ⟨i, hm⟩).small.post - (ms.get ⟨i, hm⟩).big.post :=
  ⟨by with_unfolding_all rfl,
    t_test_difference_direction sqrtZ pdfZ shuffleId stateW stateW1
      (by with_unfolding_all rfl)⟩

/-- C6: aggregator proportion.  For a nonempty iteration log the proportion
of significant iterations equals the count of rows with density value
strictly below 0.05 divided by the total row count, and lies in [0, 1]. -/
theorem proportion_significant_spec (outputs : List Output) (h : outputs ≠ []) :
    proportion_significant outputs =
      ((outputs.countP fun e => decide (e.post_t_pvalue < 0.05)) : ℚ) /
        (outputs.length : ℚ) ∧
    0 ≤ proportion_significant outputs ∧ proportion_significant outputs ≤ 1 := by
  have hpos : 0 < (outputs.length : ℚ) := by
    exact_mod_cast List.length_pos.mpr h
  refine ⟨rfl, div_nonneg (by positivity) hpos.le, ?_⟩
  rw [proportion_significant, div_le_one hpos]
  exact_mod_cast List.countP_le_length _

/-- Closed witness for the aggregator proportion: a one-row log whose single
density value 0 is below the threshold, giving proportion 1. -/
theorem proportion_significant_spec_witness :
    [outW] ≠ [] ∧
    (proportion_significant [outW] =
      (([outW].countP fun e => decide (e.post_t_pvalue < 0.05)) : ℚ) /
        (([outW].length : ℕ) : ℚ) ∧
    0 ≤ proportion_significant [outW] ∧ proportion_significant [outW] ≤ 1) :=
  ⟨by simp, proportion_significant_spec [outW] (by simp)⟩

/-- C7: empty-iteration failure.  A requested iteration count of zero leaves
the iteration log exactly as it started; on the empty log the aggregation
fails (already at the first crate mean, whose input is empty) instead of
producing aggregate statistics. -/
theorem empty_iteration_set_fails (sqrtQ : ℚ → ℚ) (pdfQ : ℚ → ℚ → ℚ)
    (shuffle : ℕ → List Instance → List Instance) (s : ProgState)
    (hout : s.outputs = []) :
    runIters sqrtQ pdfQ shuffle 0 s = some s ∧
    aggregateSummary sqrtQ s.outputs = none := by
  refine ⟨rfl, ?_⟩
  rw [hout]
  rfl

/-- Closed witness for the empty-iteration failure at a concrete state with
an empty log. -/
theorem empty_iteration_set_fails_witness :
    stateW.outputs = [] ∧
    (runIters sqrtZ pdfZ shuffleId 0 stateW = some stateW ∧
      aggregateSummary sqrtZ stateW.outputs = none) :=
  ⟨rfl, empty_iteration_set_fails sqrtZ pdfZ shuffleId stateW rfl⟩

/-- C3: paired t-test computation.  For equal-length real sequences the test
computes the per-pair differences d i = x i - y i, and returns as t the mean
of d divided by the standard error (sample standard deviation of d with
denominator n-1, divided by the square root of n), and as its p value the
probability density (not a tail probability) of a Student's t distribution
with n-1 degrees of freedom, location 0 and scale 1, evaluated at t. -/
theorem paired_t_formulas (x y : List ℝ) (hlen : x.length = y.length) :
    ((diffsR x y).length = x.length ∧
      ∀ i (hi : i < (diffsR x y).length) (hx : i < x.length) (hy : i < y.length),
        (diffsR x y).get ⟨i, hi⟩ = x.get ⟨i, hx⟩ - y.get ⟨i, hy⟩) ∧
    (paired_t x y).t =
      specMean (diffsR x y) /
        (specSampleStdev (diffsR x y) / Real.sqrt (x.length : ℝ)) ∧
    (paired_t x y).p =
      studentTDensity ((x.length - 1 : ℕ) : ℝ) ((paired_t x y).t) := by
  have hm : ∀ l : List ℝ, meanR l = specMean l := by
    intro l
    rw [meanR, specMean, List.sum_eq_foldl]
  have hs : ∀ l : List ℝ, stdevR l = specSampleStdev l := by
    intro l
    rw [stdevR, specSampleStdev, List.sum_eq_foldl, hm]
  refine ⟨⟨?_, ?_⟩, ?_, ?_⟩
  · simp [diffsR, hlen]
  · intro i hi hx hy
    simp [diffsR, List.getElem_zipWith]
  · rw [paired_t]
    simp only []
    rw [hm, hs]
  · rfl

/-- Closed witness for the t-test formulas at a concrete pair of sequences. -/
theorem paired_t_formulas_witness :
    ([1, 2] : List ℝ).length = ([0, 3] : List ℝ).length ∧
    (((diffsR [1, 2] [0, 3]).length = ([1, 2] : List ℝ).length ∧
      ∀ i (hi : i < (diffsR [1, 2] [0, 3]).length)
        (hx : i < ([1, 2] : List ℝ).length) (hy : i < ([0, 3] : List ℝ).length),
        (diffsR [1, 2] [0, 3]).get ⟨i, hi⟩ =
          ([1, 2] : List ℝ).get ⟨i, hx⟩ - ([0, 3] : List ℝ).get ⟨i, hy⟩) ∧
    (paired_t [1, 2] [0, 3]).t =
      specMean (diffsR [1, 2] [0, 3]) /
        (specSampleStdev (diffsR [1, 2] [0, 3]) /
          Real.sqrt (([1, 2] : List ℝ).length : ℝ)) ∧
    (paired_t [1, 2] [0, 3]).p =
      studentTDensity ((([1, 2] : List ℝ).length - 1 : ℕ) : ℝ)
        ((paired_t [1, 2] [0, 3]).t)) :=
  ⟨rfl, paired_t_formulas [1, 2] [0, 3] rfl⟩

lemma fp_div_num_zero (v : FP) : (FP.div v (FP.num 0)).isFinite = false := by
  cases v with
  | nan => rfl
  | inf => simp [FP.div, FP.isFinite]
  | neginf => simp [FP.div, FP.isFinite]
  | num q =>
    by_cases h0 : q = 0
    · subst h0
      simp [FP.div, FP.isFinite]
    · by_cases hq : 0 < q <;> simp [FP.div, FP.isFinite, h0, hq]

lemma fp_div_nan_left (v : FP) : FP.div FP.nan v = FP.nan := by
  cases v <;> rfl

lemma fp_div_nan_right (v : FP) : FP.div v FP.nan = FP.nan := by
  cases v <;> rfl

/-- The sample variance of a single observation is NaN (division of the
squared-deviation sum by n-1 = 0). -/
lemma fp_variance_single (d0 : FP) : FP.variance [d0] = FP.nan := by
  cases d0 with
  | nan => rfl
  | inf => rfl
  | neginf => rfl
  | num q =>
    have hmean : FP.mean [FP.num q] = FP.num q := by
      show FP.div (FP.add (FP.num 0) (FP.num q)) (FP.num ((1 : ℕ) : ℚ)) = FP.num q
      simp [FP.add, FP.div]
    rw [FP.variance, hmean]
    have hsub : FP.sub (FP.num q) (FP.num q) = FP.num 0 := by
      simp [FP.sub, FP.neg, FP.add]
    rw [List.map_singleton, hsub]
    show FP.div (FP.add (FP.num 0) (FP.mul (FP.num 0) (FP.num 0)))
      (FP.num ((0 : ℕ) : ℚ)) = FP.nan
    simp [FP.mul, FP.add, FP.div]

/-- With fewer than two observations the t statistic is NaN. -/
lemma fpT_short_nan (a b : List FP) (h : a.length < 2) : fpT a b = FP.nan := by
  have hdb_nil : ∀ c : List FP, fpDiffs c b = [] → fpDbar c b = FP.nan := by
    intro c hc
    rw [fpDbar, hc]
    show FP.div (FP.num 0) (FP.num ((0 : ℕ) : ℚ)) = FP.nan
    simp [FP.div]
  match a, h with
  | [], _ =>
    rw [fpT, hdb_nil [] rfl]
    exact fp_div_nan_left _
  | [x], _ =>
    cases b with
    | nil =>
      rw [fpT, hdb_nil [x] rfl]
      exact fp_div_nan_left _
    | cons y ys =>
      have hdiffs : fpDiffs [x] (y :: ys) = [FP.sub x y] := rfl
      have hsd : fpSd [x] (y :: ys) = FP.nan := by
        rw [fpSd, hdiffs, fp_variance_single]
        rfl
      have hse : fpSe [x] (y :: ys) = FP.nan := by
        rw [fpSe, hsd]
        exact fp_div_nan_left _
      rw [fpT, hse]
      exact fp_div_nan_right _

/-- C4: degenerate-sample permissiveness.  The IEEE-model paired t-test is a
total function (it cannot abort); on every input with fewer than two paired
observations, and on every input whose computed standard error is the finite
value zero, the t value of its result is non-finite (NaN or an infinity), so
the degeneracy propagates as a detectable non-finite sentinel in the result
instead of failing fatally. -/
theorem paired_t_degenerate_nonfinite (pdfFP : FP → FP → FP) (a b : List FP)
    (h : a.length < 2 ∨ fpSe a b = FP.num 0) :
    (paired_t_fp pdfFP a b).t.isFinite = false := by
  have ht : (paired_t_fp pdfFP a b).t = fpT a b := rfl
  rw [ht]
  rcases h with hlen | hse
  · rw [fpT_short_nan a b hlen]
    rfl
  · rw [fpT, hse]
    exact fp_div_num_zero _

/-- Closed witness for the degenerate-sample theorem: a single paired
observation yields a NaN t value. -/
theorem paired_t_degenerate_nonfinite_witness :
    (([FP.num 1] : List FP).length < 2 ∨ fpSe [FP.num 1] [FP.num 0] = FP.num 0) ∧
    (paired_t_fp pdfFPZ [FP.num 1] [FP.num 0]).t.isFinite = false :=
  ⟨Or.inl (by decide),
    paired_t_degenerate_nonfinite pdfFPZ [FP.num 1] [FP.num 0] (Or.inl (by decide))⟩
